import Mathlib

/-!
Verification development for the diagnostic-and-autofix core of a
stylesheet static-analysis tool.  The definitions below are a shallow
embedding of `lib/utils/report.mjs` (the `report` pipeline entry point
and its helpers `isDisabled`, `isFixApplied`, `addFixData`,
`buildWarningMessage`, `printfLike`) and of the reference rule
`src/rules/function-space-after/index.js`.  JavaScript `undefined` is
modelled with `Option`, thrown exceptions with `Except`, and the
mutation of the per-document result state with explicit state passing.
-/

namespace Stylelint

/-- A JavaScript value used as a positional message argument; `String(arg)`
is `argToString`. -/
inductive JSArg
| str (s : String)
| num (n : Int)
deriving DecidableEq, Repr

/-- JavaScript `String(arg)` for the argument values we model. -/
def argToString : JSArg → String
| JSArg.str s => s
| JSArg.num n => toString n

/-- A rule message: either a template string or a message-producing
function (`RuleMessage` in the source's types). -/
inductive RuleMessage
| str (s : String)
| fn (f : List JSArg → String)

/-- A line/column position (postcss `Position`). -/
structure Pos where
  line : Nat
  column : Nat
deriving DecidableEq, Repr

/-- A possibly partial range object: `node.rangeBy` can yield an object
whose `start` is absent, and fix callbacks return a range or nothing. -/
structure RangeLoc where
  start : Option Pos
  «end» : Option Pos
deriving DecidableEq, Repr

/-- A document node; only its `rangeBy({index, endIndex})` method is
consumed by `report`, so the node is modelled by that method. -/
structure Node where
  rangeBy : Option Nat → Option Nat → RangeLoc

/-- A severity specification: a literal string or a function of the
message arguments (a falsy result, modelled by `none` or `""`, falls
back to the default severity). -/
inductive SeveritySpec
| str (s : String)
| fn (f : List JSArg → Option String)

/-- Per-rule static metadata; `fixable` is the truthiness of
`metadata.fixable`. -/
structure Metadata where
  fixable : Bool
deriving DecidableEq, Repr

/-- One suppression range: `start` line, optional `end` line (absent =
open ended) and an optional rule-restriction list. -/
structure DisabledRange where
  start : Nat
  «end» : Option Nat
  rules : Option (List String)
deriving DecidableEq, Repr

/-- A recorded suppression hit (`disabledWarnings` entry). -/
structure DisabledWarning where
  rule : String
  line : Nat
deriving DecidableEq, Repr

/-- One fix-gate outcome record (`fixersData` entry). -/
structure FixerData where
  range : Option RangeLoc
  fixed : Bool
deriving DecidableEq, Repr

/-- Secondary options of a configured rule; `disableFix` is the
truthiness of `options.disableFix`. -/
structure SecondaryOptions where
  disableFix : Bool
deriving DecidableEq, Repr

/-- A configured rule entry `config.rules[name]`: a JS array whose
element `[1]` (the secondary options) may be absent. -/
structure RuleOptions where
  secondary : Option SecondaryOptions

/-- The configuration slice read by the pipeline. -/
structure Config where
  defaultSeverity : Option String
  ignoreDisables : Bool
  fix : Bool
  rules : Option (String → Option RuleOptions)

/-- The per-document `result.stylelint` state. -/
structure StylelintState where
  disabledRanges : String → Option (List DisabledRange)
  quiet : Bool
  ruleSeverities : String → Option SeveritySpec
  config : Option Config
  customMessages : String → Option RuleMessage
  customUrls : String → Option String
  ruleMetadata : String → Option Metadata
  disabledWarnings : Option (List DisabledWarning)
  stylelintError : Bool
  stylelintWarning : Bool
  fixersData : String → Option (List FixerData)

/-- A committed diagnostic: the arguments of `result.warn`. -/
structure Warning where
  message : String
  severity : Option String
  rule : String
  node : Option Node
  start : Option Pos
  index : Option Nat
  «end» : Option Pos
  endIndex : Option Nat
  word : Option String
  url : Option String

/-- The postcss result: the stylelint state plus the warning sink. -/
structure PostcssResult where
  stylelint : StylelintState
  warnings : List Warning

/-- The `Problem` descriptor passed by a rule to `report` (the `result`
field is passed separately). -/
structure Problem where
  node : Option Node
  index : Option Nat
  endIndex : Option Nat
  line : Option Nat
  start : Option Pos
  «end» : Option Pos
  ruleName : String
  word : Option String
  fix : Option (Unit → Option RangeLoc)
  message : RuleMessage
  messageArgs : List JSArg
  severity : Option SeveritySpec

/-- The exceptions the pipeline can throw: the two descriptive errors of
`report` and the JavaScript `TypeError` escaping `isFixApplied`. -/
inductive ReportError
| misusedFixCallback (ruleName : String)
| unresolvableLine (ruleName : String)
| typeError
deriving DecidableEq, Repr

/-- Modelled from the spec: the blanket all-rules key (`RULE_NAME_ALL`
imported from `constants.mjs`, which is not among the sources). -/
def RULE_NAME_ALL : String := "all"

/-- `isDisabled(ruleName, startLine, disabledRanges)` from
`lib/utils/report.mjs`: ranges under the rule's key, else the blanket
key, else `[]`; a range matches when `range.start <= startLine`,
`range.end` is absent or `>= startLine`, and its `rules` list is absent
or contains the rule. -/
def isDisabled (ruleName : String) (startLine : Nat)
    (disabledRanges : String → Option (List DisabledRange)) : Bool :=
  let ranges := ((disabledRanges ruleName).orElse
    (fun _ => disabledRanges RULE_NAME_ALL)).getD []
  ranges.any fun range =>
    decide (range.start ≤ startLine) &&
    (match range.«end» with
     | none => true
     | some e => decide (startLine ≤ e)) &&
    (match range.rules with
     | none => true
     | some rs => rs.contains ruleName)

/-- `addFixData` from `lib/utils/report.mjs`: push one `{range, fixed}`
record onto `fixersData[ruleName]`, creating the list if absent. -/
def addFixData (fixersData : String → Option (List FixerData))
    (ruleName : String) (range : Option RangeLoc) (fixed : Bool) :
    String → Option (List FixerData) :=
  fun r =>
    if r = ruleName then some (((fixersData ruleName).getD []) ++ [⟨range, fixed⟩])
    else fixersData r

/-- The evaluation of `Boolean(config.fix && !config.rules?.[ruleName][1]?.disableFix)`
inside `isFixApplied`.  When `config.fix` is falsy the `&&`
short-circuits; when `config.rules` is nullish the optional chain yields
`undefined`; when `config.rules` exists but has no entry for the rule,
`undefined[1]` throws a `TypeError`. -/
def evalShouldFix (config : Option Config) (ruleName : String) :
    Except ReportError Bool :=
  match config with
  | none => Except.ok false
  | some c =>
    if c.fix then
      match c.rules with
      | none => Except.ok true
      | some rules =>
        match rules ruleName with
        | none => Except.error ReportError.typeError
        | some opts =>
          match opts.secondary with
          | none => Except.ok true
          | some sec => Except.ok (!sec.disableFix)
    else Except.ok false

/-- The truthiness of `config.ignoreDisables` under the `config = {}`
destructuring default. -/
def configIgnoreDisables : Option Config → Bool
| none => false
| some c => c.ignoreDisables

/-- `isFixApplied` from `lib/utils/report.mjs`, with the state it
mutates returned alongside its boolean result. -/
def isFixApplied (fix : Option (Unit → Option RangeLoc)) (line : Nat)
    (st : StylelintState) (ruleName : String) :
    Except ReportError (Bool × StylelintState) :=
  match fix with
  | none =>
    Except.ok (false, {st with fixersData := addFixData st.fixersData ruleName none false})
  | some f =>
    match evalShouldFix st.config ruleName with
    | Except.error e => Except.error e
    | Except.ok shouldFix =>
      let mayFix := shouldFix &&
        (configIgnoreDisables st.config || !isDisabled ruleName line st.disabledRanges)
      if mayFix then
        Except.ok (true, {st with fixersData := addFixData st.fixersData ruleName (f ()) true})
      else
        Except.ok (false, {st with fixersData := addFixData st.fixersData ruleName none false})

/-- The leftmost match of the regular expression `%[ds]` in a character
list: the characters before the match, the matched letter (`'s'` or
`'d'`), and the characters after the match. -/
def findPH : List Char → Option (List Char × Char × List Char)
| [] => none
| c :: t =>
  if c = '%' then
    match t with
    | [] => none
    | c2 :: t2 =>
      if c2 = 's' ∨ c2 = 'd' then some ([], c2, t2)
      else (findPH t).map fun x => (c :: x.1, x.2.1, x.2.2)
  else (findPH t).map fun x => (c :: x.1, x.2.1, x.2.2)

/-- The dollar character, written by code so that no replacement-pattern
character appears literally. -/
def dollarChar : Char := Char.ofNat 36

/-- The backquote character. -/
def backquoteChar : Char := Char.ofNat 96

/-- The single-quote character. -/
def singleQuoteChar : Char := Char.ofNat 39

/-- JavaScript `String.prototype.replace` expansion of the replacement
string: `$$` is a literal dollar, `$&` the matched text, a
dollar-backquote pair the text before the match, a dollar-quote pair the
text after the match; any other dollar sequence stays literal (the
pattern `%[ds]` has no capture groups). -/
def expandRepl (matched pre post : List Char) : List Char → List Char
| [] => []
| c :: t =>
  if c = dollarChar then
    match t with
    | [] => [dollarChar]
    | c2 :: t2 =>
      if c2 = dollarChar then dollarChar :: expandRepl matched pre post t2
      else if c2 = '&' then matched ++ expandRepl matched pre post t2
      else if c2 = backquoteChar then pre ++ expandRepl matched pre post t2
      else if c2 = singleQuoteChar then post ++ expandRepl matched pre post t2
      else dollarChar :: expandRepl matched pre post (c2 :: t2)
  else c :: expandRepl matched pre post t

/-- One step of `result.replace(/%[ds]/, repl)`: replace the leftmost
`%s` or `%d` (if any) by the expanded replacement string. -/
def replaceFirstPH (s : List Char) (repl : List Char) : List Char :=
  match findPH s with
  | none => s
  | some (pre, d, post) => pre ++ expandRepl ['%', d] pre post repl ++ post

/-- The character-level body of `printfLike`:
`args.reduce((result, arg) => result.replace(/%[ds]/, String(arg)), format)`. -/
def printfCore (format : List Char) (args : List JSArg) : List Char :=
  args.foldl (fun r a => replaceFirstPH r (argToString a).data) format

/-- `printfLike(format, ...args)` from `lib/utils/report.mjs`. -/
def printfLike (format : String) (args : List JSArg) : String :=
  String.mk (printfCore format.data args)

/-- `buildWarningMessage(message, messageArgs)` from
`lib/utils/report.mjs`: strings go through `printfLike`, functions are
called with the arguments. -/
def buildWarningMessage : RuleMessage → List JSArg → String
| RuleMessage.str m, args => printfLike m args
| RuleMessage.fn f, args => f args

/-- The severity resolution of `report` (lines 29-30):
`severity = rest.severity ?? ruleSeverities[ruleName]` (destructuring
default), then `isFn(severity) ? severity(...messageArgs) || defaultSeverity
: severity`, with `defaultSeverity = 'error'` as the config
destructuring default.  `none` stands for `undefined`. -/
def resolvedSeverity (p : Problem) (st : StylelintState) : Option String :=
  let defaultSeverity :=
    match st.config with
    | none => "error"
    | some c => c.defaultSeverity.getD "error"
  match (p.severity).orElse (fun _ => st.ruleSeverities p.ruleName) with
  | some (SeveritySpec.fn f) =>
    some (match f p.messageArgs with
      | some s => if s = "" then defaultSeverity else s
      | none => defaultSeverity)
  | some (SeveritySpec.str s) => some s
  | none => none

/-- The condition of the `MisusedFixCallback` throw:
`isFn(fix) && metadata && !metadata.fixable`. -/
def misusedFix (p : Problem) (st : StylelintState) : Bool :=
  match p.fix, st.ruleMetadata p.ruleName with
  | some _, some m => !m.fixable
  | _, _ => false

/-- The start-line resolution of `report`:
`startLine = line ?? (node?.rangeBy({index,endIndex}) ?? {}).start?.line`,
with the subsequent falsiness test `!startLine` folding both `undefined`
and `0` into `none`. -/
def reportStartLine (p : Problem) : Option Nat :=
  let range :=
    match p.node with
    | some n => n.rangeBy p.index p.endIndex
    | none => { start := none, «end» := none }
  let startLine :=
    match p.line with
    | some l => some l
    | none => range.start.map Pos.line
  match startLine with
  | some (Nat.succ k) => some (Nat.succ k)
  | _ => none

/-- The `warningProperties` object assembled by `report` (lines 76-105)
together with the rendered message: `start` wins over `index`, `end`
over `endIndex`; `word` and the custom URL are attached only when
truthy; the message is the per-rule custom message override if present,
else the problem's message. -/
def mkWarning (p : Problem) (st : StylelintState) (ruleSeverity : Option String) :
    Warning :=
  let message := (st.customMessages p.ruleName).getD p.message
  let customUrl := st.customUrls p.ruleName
  { message := buildWarningMessage message p.messageArgs
    severity := ruleSeverity
    rule := p.ruleName
    node := p.node
    start := p.start
    index := if p.start.isSome then none else p.index
    «end» := p.«end»
    endIndex := if p.«end».isSome then none else p.endIndex
    word := match p.word with
      | some w => if w = "" then none else some w
      | none => none
    url := match customUrl with
      | some u => if u = "" then none else some u
      | none => none }

/-- The `stylelintError` one-way latch of `report` (lines 67-69). -/
def latchError (ruleSeverity : Option String) (st : StylelintState) : StylelintState :=
  if !st.stylelintError && ruleSeverity = some "error" then
    {st with stylelintError := true}
  else st

/-- The `stylelintWarning` one-way latch of `report` (lines 71-73). -/
def latchWarning (ruleSeverity : Option String) (st : StylelintState) : StylelintState :=
  if !st.stylelintWarning && ruleSeverity = some "warning" then
    {st with stylelintWarning := true}
  else st

/-- The `disabledWarnings.push({rule, line})` bookkeeping of `report`
(lines 57-62), including the `||= []` lazy initialisation. -/
def pushDisabledWarning (p : Problem) (startLine : Nat) (st : StylelintState) :
    StylelintState :=
  {st with
    disabledWarnings := some ((st.disabledWarnings.getD []) ++ [⟨p.ruleName, startLine⟩])}

/-- The latches plus the final `result.warn` call of `report`
(lines 67-107). -/
def reportFinishEmit (p : Problem) (res : PostcssResult) (st1 : StylelintState)
    (ruleSeverity : Option String) : Except ReportError PostcssResult :=
  Except.ok
    { stylelint := latchWarning ruleSeverity (latchError ruleSeverity st1),
      warnings := res.warnings ++
        [mkWarning p (latchWarning ruleSeverity (latchError ruleSeverity st1)) ruleSeverity] }

/-- The tail of `report` after the autofix gate (lines 54-107):
suppression re-check with `disabledWarnings` bookkeeping and the
`ignoreDisables` override, then the latches and the emission. -/
def reportEmit (p : Problem) (res : PostcssResult) (st : StylelintState)
    (startLine : Nat) (ruleSeverity : Option String) :
    Except ReportError PostcssResult :=
  if isDisabled p.ruleName startLine st.disabledRanges then
    if !configIgnoreDisables st.config then
      Except.ok { stylelint := pushDisabledWarning p startLine st,
                  warnings := res.warnings }
    else reportFinishEmit p res (pushDisabledWarning p startLine st) ruleSeverity
  else reportFinishEmit p res st ruleSeverity

/-- `report(problem)` from `lib/utils/report.mjs`, in source order:
severity resolution, the quiet-mode early return, the
`MisusedFixCallback` throw, start-line resolution with the
`UnresolvableLine` throw, the autofix gate (early return when a fix is
applied), then `reportEmit`. -/
def report (p : Problem) (res : PostcssResult) : Except ReportError PostcssResult :=
  if res.stylelint.quiet && !(resolvedSeverity p res.stylelint = some "error") then
    Except.ok res
  else if misusedFix p res.stylelint then
    Except.error (ReportError.misusedFixCallback p.ruleName)
  else
    match reportStartLine p with
    | none => Except.error (ReportError.unresolvableLine p.ruleName)
    | some startLine =>
      match isFixApplied p.fix startLine res.stylelint p.ruleName with
      | Except.error e => Except.error e
      | Except.ok (fixed, st2) =>
        if fixed then Except.ok { stylelint := st2, warnings := res.warnings }
        else reportEmit p res st2 startLine (resolvedSeverity p res.stylelint)

/-- The rule's primary option: `"always"` or `"never"`. -/
inductive Expectation
| always
| never
deriving DecidableEq, Repr

/-- Modelled from the spec: the `isWhitespace` utility (imported from
`../../utils`, not among the sources) — whether a character is
whitespace (space, tab, newline, carriage return, form feed). -/
def isWhitespaceChar (c : Char) : Bool :=
  c = ' ' || c = '\t' || c = '\n' || c = '\r' || c = '\x0c'

/-- `isWhitespace(source[i])`: absent characters (out of range) are not
whitespace. -/
def isWhitespaceAt (source : List Char) (i : Nat) : Bool :=
  match source[i]? with
  | some c => isWhitespaceChar c
  | none => false

/-- `messages.expected` of the reference rule. -/
def expectedMessage : String := "Expected single space after \")\""

/-- `messages.rejected` of the reference rule. -/
def rejectedMessage : String := "Unexpected whitespace after \")\""

/-- The fields of one `report(...)` call made by the reference rule that
localize and describe the violation: the message, and the character
offset inside the owning node, if one is supplied (the rule supplies
only `{message, node, result, ruleName}`, so `index` is always
`none`). -/
structure RuleViolation where
  message : String
  index : Option Nat
deriving DecidableEq, Repr

/-- `checkClosingParen(source, index, node)` from
`src/rules/function-space-after/index.js`, returning the violation it
reports, if any. -/
def checkClosingParen (expectation : Expectation) (source : List Char)
    (index : Nat) : Option RuleViolation :=
  let nextChar := source[index + 1]?
  match expectation with
  | Expectation.always =>
    if nextChar = some ' ' && !isWhitespaceAt source (index + 2) then none
    else if nextChar = some ')' || nextChar = some ',' || nextChar = none then none
    else some { message := expectedMessage, index := none }
  | Expectation.never =>
    if (match nextChar with
        | some c => isWhitespaceChar c
        | none => false) then
      some { message := rejectedMessage, index := none }
    else none

/-- Modelled from the spec: `styleSearch({source, target: ")"}, ...)`
(not among the sources) visits every occurrence of `")"` in the value
left to right, handing its start index to `checkClosingParen`; this is
the list of violations the rule reports for one declaration value. -/
def ruleViolations (expectation : Expectation) (value : String) :
    List RuleViolation :=
  (List.range value.data.length).filterMap fun i =>
    if value.data[i]? = some ')' then checkClosingParen expectation value.data i
    else none

/-- The claim's permissible-next-character condition for mode `always`:
a single space not itself followed by further whitespace, another
delimiter, a comma, or end of value. -/
def alwaysPermissible (source : List Char) (i : Nat) : Bool :=
  (source[i + 1]? = some ' ' && !isWhitespaceAt source (i + 2)) ||
  (source[i + 1]? = some ')' || source[i + 1]? = some ',' || source[i + 1]? = none)

/-- Formalisation of the claim's reading of template substitution: each
`%s`/`%d` placeholder of the template, in left-to-right order, is
replaced by the string form of the corresponding positional argument;
extra arguments are ignored and leftover placeholders stay literal. -/
def specTemplateSubst : List Char → List JSArg → List Char
| l, [] => l
| [], _ :: _ => []
| c :: t, a :: as =>
  if c = '%' then
    match t with
    | [] => ['%']
    | c2 :: t2 =>
      if c2 = 's' ∨ c2 = 'd' then
        (argToString a).data ++ specTemplateSubst t2 as
      else '%' :: specTemplateSubst (c2 :: t2) (a :: as)
  else c :: specTemplateSubst t (a :: as)

/-- Replace the `quiet` flag of a stylelint state. -/
def setQuietState (b : Bool) (st : StylelintState) : StylelintState :=
  { st with quiet := b }

/-- Replace the `quiet` flag of a result's stylelint state. -/
def setQuiet (b : Bool) (res : PostcssResult) : PostcssResult :=
  { res with stylelint := setQuietState b res.stylelint }

/-- The format string has no two adjacent percent characters (so no
`%%s`/`%%d`, where the leftmost-match semantics of the regex and the
per-placeholder reading of the spec part ways). -/
abbrev noDoublePct (l : List Char) : Prop :=
  List.Chain' (fun a b => ¬(a = '%' ∧ b = '%')) l

/-- Executable form of `noDoublePct`. -/
def noDoublePctB : List Char → Bool
| c :: c2 :: t => !(c = '%' && c2 = '%') && noDoublePctB (c2 :: t)
| _ => true

/-- A concrete result state with empty tables, the base of the concrete
instances below. -/
def baseState : StylelintState :=
  { disabledRanges := fun _ => none
    quiet := false
    ruleSeverities := fun _ => some (SeveritySpec.str "error")
    config := none
    customMessages := fun _ => none
    customUrls := fun _ => none
    ruleMetadata := fun _ => none
    disabledWarnings := none
    stylelintError := false
    stylelintWarning := false
    fixersData := fun _ => none }

/-- A concrete problem reporting line 1 of the rule `"block-no-empty"`. -/
def baseProblem : Problem :=
  { node := none
    index := none
    endIndex := none
    line := some 1
    start := none
    «end» := none
    ruleName := "block-no-empty"
    word := none
    fix := none
    message := RuleMessage.str "Unexpected empty block"
    messageArgs := []
    severity := none }

/-- A per-rule settings map with no entry for any rule. -/
def rulesMissingEntry : String → Option RuleOptions := fun _ => none

/-- A configuration with the global fix flag on and a rules map lacking
the reported rule. -/
def configFixNoEntry : Config :=
  { defaultSeverity := none
    ignoreDisables := false
    fix := true
    rules := some rulesMissingEntry }

/-- The single fix outcome the autofix gate records for a problem, as a
function of the evaluated `shouldFix` value `sf`. -/
def gateOutcome (p : Problem) (st : StylelintState) (sl : Nat) (sf : Bool) :
    FixerData :=
  match p.fix with
  | none => { range := none, fixed := false }
  | some f =>
    if sf && (configIgnoreDisables st.config || !isDisabled p.ruleName sl st.disabledRanges)
    then { range := f (), fixed := true }
    else { range := none, fixed := false }

/-- The base result: the base state and an empty warning sink. -/
def baseResult : PostcssResult := { stylelint := baseState, warnings := [] }

/-- A result state in quiet mode whose rules resolve to severity
`"warning"`. -/
def quietState : StylelintState :=
  { baseState with
    quiet := true
    ruleSeverities := fun _ => some (SeveritySpec.str "warning") }

/-- The quiet-mode result. -/
def quietResult : PostcssResult := { stylelint := quietState, warnings := [] }

/-- A metadata table declaring every rule non-fixable. -/
def metaNonFixable : String → Option Metadata := fun _ => some { fixable := false }

/-- The base problem with a fix callback attached. -/
def problemWithFix : Problem := { baseProblem with fix := some fun _ => none }

/-- A configuration with the global fix flag on and no rules map. -/
def configFixOn : Config :=
  { defaultSeverity := none, ignoreDisables := false, fix := true, rules := none }

/-- The base state with fixing globally enabled. -/
def stateFixOn : StylelintState := { baseState with config := some configFixOn }

/-- Result around `stateFixOn`. -/
def resultFixOn : PostcssResult := { stylelint := stateFixOn, warnings := [] }

/-- Quiet variant of `stateFixOn` whose rules resolve to `"warning"`. -/
def stateQuietFix : StylelintState :=
  { stateFixOn with
    quiet := true
    ruleSeverities := fun _ => some (SeveritySpec.str "warning") }

/-- Result around `stateQuietFix`. -/
def resultQuietFix : PostcssResult := { stylelint := stateQuietFix, warnings := [] }

/-- Quiet, warning-severity state whose metadata declares the rule
non-fixable. -/
def stateQuietNonFixable : StylelintState :=
  { quietState with ruleMetadata := metaNonFixable }

/-- Result around `stateQuietNonFixable`. -/
def resultQuietNonFixable : PostcssResult :=
  { stylelint := stateQuietNonFixable, warnings := [] }

/-- The base state with metadata declaring the rule non-fixable. -/
def stateNonFixable : StylelintState := { baseState with ruleMetadata := metaNonFixable }

/-- Result around `stateNonFixable`. -/
def resultNonFixable : PostcssResult := { stylelint := stateNonFixable, warnings := [] }

/-- A suppression table with an open-ended range from line 1 for the
base rule. -/
def rangesBase : String → Option (List DisabledRange) :=
  fun r =>
    if r = "block-no-empty" then some [{ start := 1, «end» := none, rules := none }]
    else none

/-- The base state with the base rule suppressed from line 1. -/
def stateDisabled : StylelintState := { baseState with disabledRanges := rangesBase }

/-- Result around `stateDisabled`. -/
def resultDisabled : PostcssResult := { stylelint := stateDisabled, warnings := [] }

/-- Result whose configuration makes the gate throw (`configFixNoEntry`). -/
def resultFixNoEntry : PostcssResult :=
  { stylelint := { baseState with config := some configFixNoEntry }, warnings := [] }

/-- `stateDisabled` after the gate has recorded its fixed-false outcome. -/
def stateDisabledAfterGate : StylelintState :=
  { stateDisabled with
    fixersData := addFixData stateDisabled.fixersData "block-no-empty" none false }

/-- A state after the gate has recorded its one outcome for a problem. -/
def gateState (p : Problem) (st : StylelintState) (sl : Nat) (sf : Bool) :
    StylelintState :=
  { st with
    fixersData := addFixData st.fixersData p.ruleName (gateOutcome p st sl sf).range (gateOutcome p st sl sf).fixed }

/-- `stateFixOn` after the gate applied a fix for the base rule. -/
def stateFixOnAfterFix : StylelintState :=
  { stateFixOn with
    fixersData := addFixData stateFixOn.fixersData "block-no-empty" none true }

/-- `stateQuietFix` after the gate applied a fix for the base rule. -/
def stateQuietFixAfterFix : StylelintState :=
  { stateQuietFix with
    fixersData := addFixData stateQuietFix.fixersData "block-no-empty" none true }

theorem specTemplateSubst_args_nil (l : List Char) :
    specTemplateSubst l [] = l := by
  cases l <;> rfl

theorem specTemplateSubst_nil (args : List JSArg) :
    specTemplateSubst [] args = [] := by
  cases args <;> rfl

theorem specTemplateSubst_cons_ne {c : Char} (h : c ≠ '%') (x : List Char)
    (args : List JSArg) :
    specTemplateSubst (c :: x) args = c :: specTemplateSubst x args := by
  cases args with
  | nil => rw [specTemplateSubst_args_nil, specTemplateSubst_args_nil]
  | cons a as =>
    rw [specTemplateSubst.eq_def]
    simp [h]

theorem specTemplateSubst_pct_cons {c2 : Char} (h : ¬(c2 = 's' ∨ c2 = 'd'))
    (x : List Char) (args : List JSArg) :
    specTemplateSubst ('%' :: c2 :: x) args = '%' :: specTemplateSubst (c2 :: x) args := by
  cases args with
  | nil => rw [specTemplateSubst_args_nil, specTemplateSubst_args_nil]
  | cons a as => simp [specTemplateSubst, h]

theorem specTemplateSubst_append_pct_free {u : List Char}
    (h : ∀ c ∈ u, c ≠ '%') (x : List Char) (args : List JSArg) :
    specTemplateSubst (u ++ x) args = u ++ specTemplateSubst x args := by
  induction u with
  | nil => rfl
  | cons c t ih =>
    have hc : c ≠ '%' := h c (List.mem_cons_self c t)
    have ht : ∀ c ∈ t, c ≠ '%' := fun c hmem => h c (List.mem_cons_of_mem _ hmem)
    rw [List.cons_append, specTemplateSubst_cons_ne hc, ih ht, List.cons_append]

theorem findPH_nil : findPH [] = none := rfl

theorem findPH_match {c2 : Char} (h : c2 = 's' ∨ c2 = 'd') (t2 : List Char) :
    findPH ('%' :: c2 :: t2) = some ([], c2, t2) := by
  simp [findPH, h]

theorem findPH_pct_skip {c2 : Char} (h : ¬(c2 = 's' ∨ c2 = 'd')) (t2 : List Char) :
    findPH ('%' :: c2 :: t2) =
      (findPH (c2 :: t2)).map fun x => ('%' :: x.1, x.2.1, x.2.2) := by
  simp [findPH, h]

theorem findPH_cons_ne {c : Char} (h : c ≠ '%') (t : List Char) :
    findPH (c :: t) = (findPH t).map fun x => (c :: x.1, x.2.1, x.2.2) := by
  cases t <;> simp [findPH, h]

theorem findPH_decomp (l : List Char) :
    ∀ p d q, findPH l = some (p, d, q) →
      l = p ++ '%' :: d :: q ∧ (d = 's' ∨ d = 'd') := by
  induction l with
  | nil => intro p d q h; simp [findPH_nil] at h
  | cons c t ih =>
    intro p d q h
    by_cases hc : c = '%'
    · subst hc
      cases t with
      | nil => simp [findPH] at h
      | cons c2 t2 =>
        by_cases hsd : c2 = 's' ∨ c2 = 'd'
        · rw [findPH_match hsd] at h
          obtain ⟨hp, hd, hq⟩ : [] = p ∧ c2 = d ∧ t2 = q := by
            simpa using h
          subst hp; subst hd; subst hq
          exact ⟨rfl, hsd⟩
        · rw [findPH_pct_skip hsd] at h
          cases hf : findPH (c2 :: t2) with
          | none => rw [hf] at h; simp at h
          | some x =>
            rw [hf] at h
            obtain ⟨x1, x2, x3⟩ := x
            obtain ⟨hp, hd, hq⟩ : '%' :: x1 = p ∧ x2 = d ∧ x3 = q := by
              simpa using h
            subst hp; subst hd; subst hq
            obtain ⟨hdec, hsd2⟩ := ih x1 x2 x3 hf
            exact ⟨by rw [List.cons_append, ← hdec], hsd2⟩
    · rw [findPH_cons_ne hc] at h
      cases hf : findPH t with
      | none => rw [hf] at h; simp at h
      | some x =>
        rw [hf] at h
        obtain ⟨x1, x2, x3⟩ := x
        obtain ⟨hp, hd, hq⟩ : c :: x1 = p ∧ x2 = d ∧ x3 = q := by
          simpa using h
        subst hp; subst hd; subst hq
        obtain ⟨hdec, hsd2⟩ := ih x1 x2 x3 hf
        exact ⟨by rw [List.cons_append, ← hdec], hsd2⟩

theorem expandRepl_no_dollar (m pre post : List Char) {r : List Char}
    (h : ∀ c ∈ r, c ≠ dollarChar) : expandRepl m pre post r = r := by
  induction r with
  | nil => rfl
  | cons c t ih =>
    have hc : c ≠ dollarChar := h c (List.mem_cons_self c t)
    have ht : ∀ c ∈ t, c ≠ dollarChar := fun c hmem => h c (List.mem_cons_of_mem _ hmem)
    rw [expandRepl.eq_def]
    simp [hc, ih ht]

theorem replaceFirstPH_of_none {s : List Char} (h : findPH s = none)
    (r : List Char) : replaceFirstPH s r = s := by
  simp [replaceFirstPH, h]

theorem replaceFirstPH_of_some {s p q : List Char} {d : Char}
    (h : findPH s = some (p, d, q)) {r : List Char}
    (hr : ∀ c ∈ r, c ≠ dollarChar) : replaceFirstPH s r = p ++ r ++ q := by
  simp [replaceFirstPH, h, expandRepl_no_dollar _ _ _ hr]

theorem printfCore_nil (l : List Char) : printfCore l [] = l := rfl

theorem printfCore_cons (l : List Char) (a : JSArg) (as : List JSArg) :
    printfCore l (a :: as) =
      printfCore (replaceFirstPH l (argToString a).data) as := rfl

theorem specTemplateSubst_no_ph {l : List Char} (h : findPH l = none)
    (args : List JSArg) : specTemplateSubst l args = l := by
  induction l with
  | nil => exact specTemplateSubst_nil args
  | cons c t ih =>
    by_cases hc : c = '%'
    · subst hc
      cases t with
      | nil =>
        cases args with
        | nil => rfl
        | cons a as => rfl
      | cons c2 t2 =>
        by_cases hsd : c2 = 's' ∨ c2 = 'd'
        · rw [findPH_match hsd] at h; simp at h
        · rw [findPH_pct_skip hsd] at h
          have ht : findPH (c2 :: t2) = none := by
            cases hf : findPH (c2 :: t2) with
            | none => rfl
            | some x => rw [hf] at h; simp at h
          rw [specTemplateSubst_pct_cons hsd, ih ht]
    · rw [findPH_cons_ne hc] at h
      have ht : findPH t = none := by
        cases hf : findPH t with
        | none => rfl
        | some x => rw [hf] at h; simp at h
      rw [specTemplateSubst_cons_ne hc, ih ht]

theorem noDoublePctB_iff (l : List Char) : noDoublePctB l = true ↔ noDoublePct l := by
  unfold noDoublePct
  induction l with
  | nil => simp [noDoublePctB]
  | cons c t ih =>
    cases t with
    | nil => simp [noDoublePctB]
    | cons c2 t2 =>
      rw [List.chain'_cons, ← ih]
      show (!(c = '%' && c2 = '%') && noDoublePctB (c2 :: t2)) = true ↔ _
      simp only [Bool.and_eq_true, Bool.not_eq_true', Bool.and_eq_false_iff,
        decide_eq_false_iff_not]
      constructor
      · rintro ⟨h1, h2⟩
        exact ⟨fun hc => by rcases h1 with h | h; exact absurd hc.1 h; exact absurd hc.2 h, h2⟩
      · rintro ⟨h1, h2⟩
        by_cases hc : c = '%'
        · exact ⟨Or.inr fun hc2 => h1 ⟨hc, hc2⟩, h2⟩
        · exact ⟨Or.inl hc, h2⟩

theorem mem_of_mem_getLast? {α : Type} {l : List α} {x : α}
    (h : x ∈ l.getLast?) : x ∈ l := by
  obtain ⟨hne, hx⟩ := List.mem_getLast?_eq_getLast h
  rw [hx]
  exact List.getLast_mem hne

theorem chain'_pct_free {r : List Char} (h : ∀ c ∈ r, c ≠ '%') :
    List.Chain' (fun a b => ¬(a = '%' ∧ b = '%')) r := by
  induction r with
  | nil => exact List.chain'_nil
  | cons c t ih =>
    cases t with
    | nil => exact List.chain'_singleton c
    | cons c2 t2 =>
      rw [List.chain'_cons]
      refine ⟨fun hab => absurd hab.1 (h c (by simp)), ?_⟩
      exact ih fun x hx => h x (List.mem_cons_of_mem _ hx)

theorem noDoublePct_replace {l p q : List Char} {d : Char}
    (hl : noDoublePct l) (hf : findPH l = some (p, d, q))
    {r : List Char} (hr : ∀ c ∈ r, c ≠ '%') :
    noDoublePct (p ++ r ++ q) := by
  obtain ⟨hdec, _⟩ := findPH_decomp l p d q hf
  subst hdec
  unfold noDoublePct at *
  rw [List.chain'_append] at hl
  obtain ⟨hp, hmid, hjunc⟩ := hl
  have hdq := (List.chain'_cons.mp hmid).2
  have hq := hdq.tail
  have hplast : ∀ x ∈ p.getLast?, x ≠ '%' := by
    intro x hx hxe
    exact hjunc x hx '%' (by simp) ⟨hxe, rfl⟩
  rw [List.chain'_append]
  refine ⟨?_, hq, ?_⟩
  · rw [List.chain'_append]
    refine ⟨hp, chain'_pct_free hr, ?_⟩
    intro x hx y _ hcontra
    exact hplast x hx hcontra.1
  · intro x hx y _ hcontra
    by_cases hre : r = []
    · subst hre
      rw [List.append_nil] at hx
      exact hplast x hx hcontra.1
    · rw [List.getLast?_append_of_ne_nil _ hre] at hx
      exact hr x (mem_of_mem_getLast? hx) hcontra.1

theorem specTemplateSubst_step (a : JSArg) (as : List JSArg) {l : List Char}
    (ha : ∀ c ∈ (argToString a).data, c ≠ '%' ∧ c ≠ dollarChar)
    (hl : noDoublePct l) :
    specTemplateSubst l (a :: as) =
      specTemplateSubst (replaceFirstPH l (argToString a).data) as := by
  have haP : ∀ c ∈ (argToString a).data, c ≠ '%' := fun c hc => (ha c hc).1
  have haD : ∀ c ∈ (argToString a).data, c ≠ dollarChar := fun c hc => (ha c hc).2
  induction l with
  | nil =>
    rw [replaceFirstPH_of_none findPH_nil, specTemplateSubst_nil, specTemplateSubst_nil]
  | cons c t ih =>
    by_cases hc : c = '%'
    · subst hc
      cases t with
      | nil =>
        have hnone : findPH ['%'] = none := by simp [findPH]
        rw [replaceFirstPH_of_none hnone, specTemplateSubst_no_ph hnone,
          specTemplateSubst_no_ph hnone]
      | cons c2 t2 =>
        by_cases hsd : c2 = 's' ∨ c2 = 'd'
        · have hf : findPH ('%' :: c2 :: t2) = some ([], c2, t2) := findPH_match hsd t2
          rw [replaceFirstPH_of_some hf haD]
          have hleft : specTemplateSubst ('%' :: c2 :: t2) (a :: as)
              = (argToString a).data ++ specTemplateSubst t2 as := by
            rw [specTemplateSubst.eq_def]
            simp [hsd]
          rw [hleft, List.nil_append, specTemplateSubst_append_pct_free haP]
        · have hchain : List.Chain' (fun a b => ¬(a = '%' ∧ b = '%')) ('%' :: c2 :: t2) := hl
          have hc2 : c2 ≠ '%' := fun he => (List.chain'_cons.mp hchain).1 ⟨rfl, he⟩
          have htl : noDoublePct (c2 :: t2) := (List.chain'_cons.mp hchain).2
          rw [specTemplateSubst_pct_cons hsd]
          cases hf : findPH (c2 :: t2) with
          | none =>
            have hfl : findPH ('%' :: c2 :: t2) = none := by
              rw [findPH_pct_skip hsd, hf]
              rfl
            rw [replaceFirstPH_of_none hfl, ih htl, replaceFirstPH_of_none hf,
              specTemplateSubst_pct_cons hsd]
          | some x =>
            obtain ⟨p, d, q⟩ := x
            have hfl : findPH ('%' :: c2 :: t2) = some ('%' :: p, d, q) := by
              rw [findPH_pct_skip hsd, hf]
              rfl
            rw [replaceFirstPH_of_some hfl haD, ih htl, replaceFirstPH_of_some hf haD]
            obtain ⟨hdec, _⟩ := findPH_decomp _ _ _ _ hf
            cases p with
            | nil =>
              rw [List.nil_append] at hdec
              exact absurd (List.cons.inj hdec).1 hc2
            | cons p0 p' =>
              have hp0 : c2 = p0 := by
                rw [List.cons_append] at hdec
                exact (List.cons.inj hdec).1
              subst hp0
              have e1 : ('%' :: c2 :: p') ++ (argToString a).data ++ q
                  = '%' :: c2 :: (p' ++ (argToString a).data ++ q) := by simp
              have e2 : (c2 :: p') ++ (argToString a).data ++ q
                  = c2 :: (p' ++ (argToString a).data ++ q) := by simp
              rw [e1, e2, specTemplateSubst_pct_cons hsd]
    · have hchain : List.Chain' (fun a b => ¬(a = '%' ∧ b = '%')) (c :: t) := hl
      have htl : noDoublePct t := hchain.tail
      rw [specTemplateSubst_cons_ne hc]
      cases hf : findPH t with
      | none =>
        have hfl : findPH (c :: t) = none := by
          rw [findPH_cons_ne hc, hf]
          rfl
        rw [replaceFirstPH_of_none hfl, ih htl, replaceFirstPH_of_none hf,
          specTemplateSubst_cons_ne hc]
      | some x =>
        obtain ⟨p, d, q⟩ := x
        have hfl : findPH (c :: t) = some (c :: p, d, q) := by
          rw [findPH_cons_ne hc, hf]
          rfl
        rw [replaceFirstPH_of_some hfl haD, ih htl, replaceFirstPH_of_some hf haD]
        have e1 : (c :: p) ++ (argToString a).data ++ q
            = c :: (p ++ (argToString a).data ++ q) := by simp
        rw [e1, specTemplateSubst_cons_ne hc]

theorem printfCore_eq_specTemplateSubst (args : List JSArg) :
    ∀ l : List Char,
      (∀ b ∈ args, ∀ c ∈ (argToString b).data, c ≠ '%' ∧ c ≠ dollarChar) →
      noDoublePct l → printfCore l args = specTemplateSubst l args := by
  induction args with
  | nil =>
    intro l _ _
    rw [printfCore_nil, specTemplateSubst_args_nil]
  | cons a as ih =>
    intro l hargs hl
    have ha := hargs a (by simp)
    have has : ∀ b ∈ as, ∀ c ∈ (argToString b).data, c ≠ '%' ∧ c ≠ dollarChar :=
      fun b hb => hargs b (List.mem_cons_of_mem _ hb)
    have hpres : noDoublePct (replaceFirstPH l (argToString a).data) := by
      cases hf : findPH l with
      | none =>
        rw [replaceFirstPH_of_none hf]
        exact hl
      | some x =>
        obtain ⟨p, d, q⟩ := x
        rw [replaceFirstPH_of_some hf (fun c hc => (ha c hc).2)]
        exact noDoublePct_replace hl hf (fun c hc => (ha c hc).1)
    rw [printfCore_cons, ih _ has hpres, ← specTemplateSubst_step a as ha hl]

theorem contains_iff_mem {rs : List String} {a : String} :
    rs.contains a = true ↔ a ∈ rs := List.elem_iff

theorem rangeMatchesB_iff (range : DisabledRange) (ruleName : String) (line : Nat) :
    ((decide (range.start ≤ line)) &&
      (match range.«end» with
       | none => true
       | some e => decide (line ≤ e)) &&
      (match range.rules with
       | none => true
       | some rs => rs.contains ruleName)) = true
    ↔ range.start ≤ line ∧
      (range.«end» = none ∨ ∃ e, range.«end» = some e ∧ line ≤ e) ∧
      (range.rules = none ∨ ∃ rs, range.rules = some rs ∧ ruleName ∈ rs) := by
  obtain ⟨s, e?, r?⟩ := range
  cases e? <;> cases r? <;>
    simp [Bool.and_eq_true, contains_iff_mem, and_assoc]

/-- Claim C4 (confirmed): for every rule identifier, line number and
suppression-range table, `isDisabled` returns true iff some range in
the sequence under the rule's own key — or, when that key is absent,
under the blanket all-rules key — satisfies `start ≤ line`, `end`
absent or `end ≥ line`, and rule-restriction list absent or containing
the rule identifier. -/
theorem claim_C4_isDisabled (ruleName : String) (line : Nat)
    (disabledRanges : String → Option (List DisabledRange)) :
    isDisabled ruleName line disabledRanges = true ↔
      ∃ range ∈ (match disabledRanges ruleName with
        | some rs => rs
        | none => (disabledRanges RULE_NAME_ALL).getD []),
        range.start ≤ line ∧
        (range.«end» = none ∨ ∃ e, range.«end» = some e ∧ line ≤ e) ∧
        (range.rules = none ∨ ∃ rs, range.rules = some rs ∧ ruleName ∈ rs) := by
  have hsel : ((disabledRanges ruleName).orElse
      (fun _ => disabledRanges RULE_NAME_ALL)).getD []
      = (match disabledRanges ruleName with
         | some rs => rs
         | none => (disabledRanges RULE_NAME_ALL).getD []) := by
    cases disabledRanges ruleName <;> rfl
  unfold isDisabled
  rw [hsel, List.any_eq_true]
  exact exists_congr fun range =>
    and_congr_right fun _ => rangeMatchesB_iff range ruleName line

/-- Claim C8 (amended): `render(messageSpec, args)` — a callable message
specification is invoked with the arguments and its result returned
verbatim; a template string has each `%s`/`%d` placeholder substituted
in left-to-right order with the string form of the corresponding
positional argument, extra arguments ignored and leftover placeholders
literal, provided no argument's string form contains a `%` or `$`
character and the template has no two adjacent `%` characters (without
that proviso the code's substitution is sequential and self-referential,
see the counterexample). -/
theorem claim_C8_render (fmt : String) (args : List JSArg) (f : List JSArg → String)
    (hargs : ∀ b ∈ args, ∀ c ∈ (argToString b).data, c ≠ '%' ∧ c ≠ dollarChar)
    (hfmt : noDoublePctB fmt.data = true) :
    buildWarningMessage (RuleMessage.str fmt) args
      = String.mk (specTemplateSubst fmt.data args)
    ∧ buildWarningMessage (RuleMessage.fn f) args = f args := by
  refine ⟨?_, rfl⟩
  show printfLike fmt args = _
  unfold printfLike
  rw [printfCore_eq_specTemplateSubst args fmt.data hargs ((noDoublePctB_iff _).mp hfmt)]

theorem claim_C8_render_witness :
    (∀ b ∈ [JSArg.str "a", JSArg.num 1],
      ∀ c ∈ (argToString b).data, c ≠ '%' ∧ c ≠ dollarChar)
    ∧ noDoublePctB "Expected %s but found %d".data = true
    ∧ buildWarningMessage (RuleMessage.str "Expected %s but found %d")
        [JSArg.str "a", JSArg.num 1] = "Expected a but found 1" := by
  have h1 : ∀ b ∈ [JSArg.str "a", JSArg.num 1],
      ∀ c ∈ (argToString b).data, c ≠ '%' ∧ c ≠ dollarChar := by decide
  have h2 : noDoublePctB "Expected %s but found %d".data = true := by decide
  refine ⟨h1, h2, ?_⟩
  rw [(claim_C8_render "Expected %s but found %d" [JSArg.str "a", JSArg.num 1]
    (fun _ => "") h1 h2).1]
  decide

/-- Claim C8 counterexample: with the template `"%s %d"` and arguments
`["%d", "X"]` the code substitutes sequentially into the accumulated
string, yielding `"X %d"`; substituting each placeholder with the
corresponding positional argument, as the claim states
(`specTemplateSubst`), yields `"%d X"` instead. -/
theorem claim_C8_counterexample :
    buildWarningMessage (RuleMessage.str "%s %d") [JSArg.str "%d", JSArg.str "X"] = "X %d"
    ∧ String.mk (specTemplateSubst "%s %d".data [JSArg.str "%d", JSArg.str "X"]) = "%d X"
    ∧ ("X %d" : String) ≠ "%d X" :=
  ⟨by decide, by decide, by decide⟩

theorem checkClosingParen_always (source : List Char) (i : Nat) :
    checkClosingParen Expectation.always source i
      = if alwaysPermissible source i then none
        else some { message := expectedMessage, index := none } := by
  unfold checkClosingParen alwaysPermissible
  cases h1 : (source[i + 1]? = some ' ' && !isWhitespaceAt source (i + 2)) <;>
    cases h2 : (source[i + 1]? = some ')' || source[i + 1]? = some ','
      || source[i + 1]? = none : Bool) <;>
    simp only [h1, h2] <;> simp

theorem filterMap_eq_map_filter {α β : Type} (f : α → Option β) (p : α → Bool)
    (g : β) (h : ∀ a, f a = if p a then some g else none) (l : List α) :
    l.filterMap f = (l.filter p).map (fun _ => g) := by
  induction l with
  | nil => rfl
  | cons x t ih =>
    cases hp : p x <;> rw [List.filterMap_cons, List.filter_cons, h x, hp] <;> simp [ih]

/-- Claim C9 (amended): in mode `always`, for every occurrence of the
closing delimiter in a declaration value, a violation carrying the
expected-single-space message is produced exactly when the next
character is not in the permissible set (a single space not itself
followed by further whitespace, another delimiter, a comma, or
end-of-value); every such violation is attached to the owning node
without a delimiter offset (its `index` is `none`), rather than being
localized to the delimiter's position. -/
theorem claim_C9_always (value : String) :
    (∀ i, checkClosingParen Expectation.always value.data i
        = if alwaysPermissible value.data i then none
          else some { message := expectedMessage, index := none })
    ∧ ruleViolations Expectation.always value
        = ((List.range value.data.length).filter
            (fun i => value.data.get? i = some ')' && !alwaysPermissible value.data i)).map
            (fun _ => { message := expectedMessage, index := none }) := by
  refine ⟨fun i => checkClosingParen_always value.data i, ?_⟩
  unfold ruleViolations
  refine filterMap_eq_map_filter _ _ _ (fun i => ?_) _
  rw [checkClosingParen_always]
  by_cases hp : value.data[i]? = some ')'
  · by_cases hperm : alwaysPermissible value.data i
    · simp [hp, hperm]
    · simp [hp, hperm]
  · simp [hp]

/-- Claim C9 counterexample: for the value `"translate(10px)scale(2)"`
in mode `always`, the single reported violation carries no character
offset (`index` is `none`); it is therefore not localized to the
delimiter's position (offset 14) within the owning node, the rule passes
only the node itself. -/
theorem claim_C9_counterexample :
    ruleViolations Expectation.always "translate(10px)scale(2)"
      = [{ message := expectedMessage, index := none }]
    ∧ ({ message := expectedMessage, index := none } : RuleViolation).index ≠ some 14 :=
  ⟨by decide, by decide⟩

/-- Claim C10 (confirmed): when a fix callback is present, the global
fix flag is enabled, and the configuration's per-rule settings map is
present but has no entry for the rule, the autofix gate's `shouldFix`
computation (`config.rules?.[ruleName][1]?.disableFix`) reads a property
of `undefined` and throws a `TypeError` instead of returning a fix
decision. -/
theorem claim_C10_gate_typeError (f : Unit → Option RangeLoc) (line : Nat)
    (st : StylelintState) (ruleName : String) (c : Config)
    (rules : String → Option RuleOptions)
    (hc : st.config = some c) (hfix : c.fix = true)
    (hrules : c.rules = some rules) (hmiss : rules ruleName = none) :
    isFixApplied (some f) line st ruleName = Except.error ReportError.typeError := by
  have he : evalShouldFix st.config ruleName = Except.error ReportError.typeError := by
    simp [evalShouldFix, hc, hfix, hrules, hmiss]
  simp [isFixApplied, he]

theorem claim_C10_gate_typeError_witness :
    isFixApplied (some fun _ => none) 1
      { baseState with config := some configFixNoEntry } "block-no-empty"
      = Except.error ReportError.typeError :=
  claim_C10_gate_typeError (fun _ => none) 1
    { baseState with config := some configFixNoEntry } "block-no-empty"
    configFixNoEntry rulesMissingEntry rfl rfl rfl rfl

theorem quietCond_false {p : Problem} {res : PostcssResult}
    (hq : res.stylelint.quiet = false ∨ resolvedSeverity p res.stylelint = some "error") :
    (res.stylelint.quiet && !(resolvedSeverity p res.stylelint = some "error")) = false := by
  rcases hq with h | h
  · rw [h]
    rfl
  · rw [h]
    simp

/-- Claim C1 (amended): a Problem carrying a fix callback for a rule
whose declared metadata marks it non-fixable makes the pipeline raise
the `MisusedFixCallback` error naming the rule, and no diagnostic is
emitted for that Problem — for every resolved severity when quiet mode
is off, and under quiet mode when the resolved severity is `error`;
under quiet mode with a non-error resolved severity the candidate is
silently discarded before the check runs (see the counterexample). -/
theorem claim_C1_misusedFix (p : Problem) (res : PostcssResult)
    (f : Unit → Option RangeLoc) (m : Metadata)
    (hfix : p.fix = some f)
    (hmeta : res.stylelint.ruleMetadata p.ruleName = some m)
    (hfixable : m.fixable = false)
    (hq : res.stylelint.quiet = false ∨ resolvedSeverity p res.stylelint = some "error") :
    report p res = Except.error (ReportError.misusedFixCallback p.ruleName) := by
  have hqc := quietCond_false hq
  have hm : misusedFix p res.stylelint = true := by
    unfold misusedFix
    rw [hfix, hmeta]
    simp [hfixable]
  unfold report
  rw [hqc, hm]
  simp

theorem claim_C1_misusedFix_witness :
    report { baseProblem with fix := some fun _ => none } resultNonFixable
      = Except.error (ReportError.misusedFixCallback "block-no-empty") :=
  claim_C1_misusedFix _ _ (fun _ => none) { fixable := false } rfl rfl rfl (Or.inl rfl)

/-- Claim C1 counterexample: a Problem carrying a fix callback for a
rule whose metadata declares `fixable: false`, under quiet mode with
resolved severity `"warning"`: `report` returns normally without
raising `MisusedFixCallback` — the quiet filter runs first — refuting
"regardless of quiet mode and of the resolved severity". -/
theorem claim_C1_counterexample :
    problemWithFix.fix.isSome = true
    ∧ resultQuietNonFixable.stylelint.ruleMetadata problemWithFix.ruleName
        = some { fixable := false }
    ∧ resultQuietNonFixable.stylelint.quiet = true
    ∧ resolvedSeverity problemWithFix resultQuietNonFixable.stylelint = some "warning"
    ∧ report problemWithFix resultQuietNonFixable = Except.ok resultQuietNonFixable
    ∧ report problemWithFix resultQuietNonFixable
        ≠ Except.error (ReportError.misusedFixCallback problemWithFix.ruleName) := by
  have h : report problemWithFix resultQuietNonFixable = Except.ok resultQuietNonFixable := rfl
  exact ⟨rfl, rfl, rfl, rfl, h, by rw [h]; exact fun hc => Except.noConfusion hc⟩

/-- Claim C2 (amended): for every Problem supplying neither an explicit
line nor a node from which a line can be derived, the pipeline raises
the `UnresolvableLine` error naming the rule before any mutation of the
per-document Result State — provided the candidate is not first
discarded by quiet mode (quiet off, or resolved severity `error`) and
does not also misuse a fix callback (that error takes precedence). -/
theorem claim_C2_unresolvableLine (p : Problem) (res : PostcssResult)
    (hline : p.line = none)
    (hnode : ∀ n, p.node = some n → (n.rangeBy p.index p.endIndex).start = none)
    (hq : res.stylelint.quiet = false ∨ resolvedSeverity p res.stylelint = some "error")
    (hm : misusedFix p res.stylelint = false) :
    report p res = Except.error (ReportError.unresolvableLine p.ruleName) := by
  have hqc := quietCond_false hq
  have hsl : reportStartLine p = none := by
    cases hn : p.node with
    | none => simp [reportStartLine, hline, hn]
    | some n => simp [reportStartLine, hline, hn, hnode n hn]
  unfold report
  rw [hqc, hm, hsl]
  simp

theorem claim_C2_unresolvableLine_witness :
    report { baseProblem with line := none } baseResult
      = Except.error (ReportError.unresolvableLine "block-no-empty") :=
  claim_C2_unresolvableLine _ _ rfl (fun _ hn => nomatch hn) (Or.inl rfl) rfl

/-- Claim C2 counterexample: a Problem with neither a line nor a node,
under quiet mode with resolved severity `"warning"`: `report` returns
normally — the quiet filter runs first — so `UnresolvableLine` is not
always raised. -/
theorem claim_C2_counterexample :
    ({ baseProblem with line := none } : Problem).line = none
    ∧ ({ baseProblem with line := none } : Problem).node = none
    ∧ report { baseProblem with line := none } quietResult = Except.ok quietResult
    ∧ report { baseProblem with line := none } quietResult
        ≠ Except.error (ReportError.unresolvableLine "block-no-empty") := by
  have h : report { baseProblem with line := none } quietResult = Except.ok quietResult := rfl
  exact ⟨rfl, rfl, h, by rw [h]; exact fun hc => Except.noConfusion hc⟩

theorem addFixData_self (fd : String → Option (List FixerData)) (ruleName : String)
    (range : Option RangeLoc) (fixed : Bool) :
    addFixData fd ruleName range fixed ruleName
      = some ((fd ruleName).getD [] ++ [⟨range, fixed⟩]) := by
  unfold addFixData
  simp

theorem addFixData_ne (fd : String → Option (List FixerData)) (ruleName : String)
    (range : Option RangeLoc) (fixed : Bool) {r : String} (h : r ≠ ruleName) :
    addFixData fd ruleName range fixed r = fd r := by
  unfold addFixData
  simp [h]

theorem isFixApplied_some {st : StylelintState} {ruleName : String} {sf : Bool}
    (hsf : evalShouldFix st.config ruleName = Except.ok sf)
    (f : Unit → Option RangeLoc) (line : Nat) :
    isFixApplied (some f) line st ruleName
      = if sf && (configIgnoreDisables st.config || !isDisabled ruleName line st.disabledRanges)
        then Except.ok (true, { st with fixersData := addFixData st.fixersData ruleName (f ()) true })
        else Except.ok (false, { st with fixersData := addFixData st.fixersData ruleName none false }) := by
  unfold isFixApplied
  rw [hsf]

theorem isFixApplied_gateOutcome (p : Problem) (st : StylelintState) (sl : Nat)
    (sf : Bool)
    (hsf : p.fix = none ∨ evalShouldFix st.config p.ruleName = Except.ok sf) :
    isFixApplied p.fix sl st p.ruleName
      = Except.ok ((gateOutcome p st sl sf).fixed, gateState p st sl sf) := by
  cases hfx : p.fix with
  | none =>
    unfold gateState gateOutcome
    rw [hfx]
    rfl
  | some f =>
    rcases hsf with h | hsf
    · rw [hfx] at h
      exact Option.noConfusion h
    unfold gateState gateOutcome
    rw [hfx, isFixApplied_some hsf f sl]
    cases hmay : (sf && (configIgnoreDisables st.config
        || !isDisabled p.ruleName sl st.disabledRanges))
    · simp [hmay]
    · simp [hmay]

theorem latchError_fixersData (sev : Option String) (st : StylelintState) :
    (latchError sev st).fixersData = st.fixersData := by
  unfold latchError
  split <;> rfl

theorem latchWarning_fixersData (sev : Option String) (st : StylelintState) :
    (latchWarning sev st).fixersData = st.fixersData := by
  unfold latchWarning
  split <;> rfl

theorem latchError_disabledWarnings (sev : Option String) (st : StylelintState) :
    (latchError sev st).disabledWarnings = st.disabledWarnings := by
  unfold latchError
  split <;> rfl

theorem latchWarning_disabledWarnings (sev : Option String) (st : StylelintState) :
    (latchWarning sev st).disabledWarnings = st.disabledWarnings := by
  unfold latchWarning
  split <;> rfl

theorem reportEmit_ok (p : Problem) (res : PostcssResult) (st : StylelintState)
    (sl : Nat) (sev : Option String) :
    ∃ r', reportEmit p res st sl sev = Except.ok r'
      ∧ r'.stylelint.fixersData = st.fixersData := by
  unfold reportEmit reportFinishEmit
  split
  · split
    · exact ⟨_, rfl, rfl⟩
    · refine ⟨_, rfl, ?_⟩
      rw [latchWarning_fixersData, latchError_fixersData]
      rfl
  · refine ⟨_, rfl, ?_⟩
    rw [latchWarning_fixersData, latchError_fixersData]

/-- Claim C5 (amended): the pipeline applies its stages in the source
order Severity Resolver, quiet-mode filter, misused-fix check, line
resolution, Autofix Gate (exiting if fixed), suppression re-check,
Diagnostic Emitter, Message Formatter.  The quiet filter precedes the
Autofix Gate — a quiet non-error candidate is discarded without the fix
callback being invoked, contrary to the claimed order — while a
candidate the gate does fix is consumed before the suppression
re-check, the latches and the emission. -/
theorem claim_C5_order :
    (∀ (p : Problem) (res : PostcssResult),
      (res.stylelint.quiet && !(resolvedSeverity p res.stylelint = some "error")) = true →
      report p res = Except.ok res)
    ∧ (∀ (p : Problem) (res : PostcssResult),
      (res.stylelint.quiet && !(resolvedSeverity p res.stylelint = some "error")) = false →
      misusedFix p res.stylelint = true →
      report p res = Except.error (ReportError.misusedFixCallback p.ruleName))
    ∧ (∀ (p : Problem) (res : PostcssResult),
      (res.stylelint.quiet && !(resolvedSeverity p res.stylelint = some "error")) = false →
      misusedFix p res.stylelint = false →
      reportStartLine p = none →
      report p res = Except.error (ReportError.unresolvableLine p.ruleName))
    ∧ (∀ (p : Problem) (res : PostcssResult) (sl : Nat) (st2 : StylelintState),
      (res.stylelint.quiet && !(resolvedSeverity p res.stylelint = some "error")) = false →
      misusedFix p res.stylelint = false →
      reportStartLine p = some sl →
      isFixApplied p.fix sl res.stylelint p.ruleName = Except.ok (true, st2) →
      report p res = Except.ok { stylelint := st2, warnings := res.warnings }) := by
  refine ⟨?_, ?_, ?_, ?_⟩
  · intro p res h
    unfold report
    rw [h]
    rfl
  · intro p res h1 h2
    unfold report
    rw [h1, h2]
    simp
  · intro p res h1 h2 h3
    unfold report
    rw [h1, h2, h3]
    simp
  · intro p res sl st2 h1 h2 h3 h4
    unfold report
    rw [h1, h2, h3]
    simp [h4]

theorem claim_C5_order_witness :
    report problemWithFix resultFixOn
      = Except.ok { stylelint := stateFixOnAfterFix, warnings := [] } :=
  claim_C5_order.2.2.2 problemWithFix resultFixOn 1 stateFixOnAfterFix
    rfl rfl rfl rfl

/-- Claim C5 counterexample: quiet mode on, resolved severity warning, a
fix callback present and `mayFix` holding — the gate run on its own
would fix and record an outcome — yet `report` discards the candidate
with the state untouched: the quiet-mode filter is consulted before the
Autofix Gate, not after it as the claimed stage order requires. -/
theorem claim_C5_counterexample :
    isFixApplied problemWithFix.fix 1 stateQuietFix "block-no-empty"
      = Except.ok (true, stateQuietFixAfterFix)
    ∧ report problemWithFix resultQuietFix = Except.ok resultQuietFix
    ∧ resultQuietFix.stylelint.fixersData "block-no-empty" = none :=
  ⟨rfl, rfl, rfl⟩

/-- Claim C3 (amended): for every Problem that reaches the Autofix Gate
and for which the gate's per-rule settings lookup does not throw (see
claim C10), exactly one FixOutcome is appended under its rule — with
fixed=false when no fix callback is present or when
mayFix = shouldFix AND (ignoreSuppressions OR NOT isSuppressed) is
false, and with fixed=true carrying the callback's returned edit range
when mayFix is true, in which case no diagnostic is emitted for the
candidate. -/
theorem claim_C3_gate (p : Problem) (res : PostcssResult) (sl : Nat) (sf : Bool)
    (hq : (res.stylelint.quiet && !(resolvedSeverity p res.stylelint = some "error")) = false)
    (hm : misusedFix p res.stylelint = false)
    (hl : reportStartLine p = some sl)
    (hsf : p.fix = none ∨ evalShouldFix res.stylelint.config p.ruleName = Except.ok sf) :
    ∃ r', report p res = Except.ok r'
      ∧ r'.stylelint.fixersData p.ruleName
          = some ((res.stylelint.fixersData p.ruleName).getD []
              ++ [gateOutcome p res.stylelint sl sf])
      ∧ (∀ r, r ≠ p.ruleName → r'.stylelint.fixersData r = res.stylelint.fixersData r)
      ∧ ((gateOutcome p res.stylelint sl sf).fixed = true → r'.warnings = res.warnings) := by
  have hfa := isFixApplied_gateOutcome p res.stylelint sl sf hsf
  have hfd1 : (gateState p res.stylelint sl sf).fixersData p.ruleName
      = some ((res.stylelint.fixersData p.ruleName).getD []
          ++ [gateOutcome p res.stylelint sl sf]) := by
    show addFixData res.stylelint.fixersData p.ruleName (gateOutcome p res.stylelint sl sf).range (gateOutcome p res.stylelint sl sf).fixed p.ruleName = _
    rw [addFixData_self]
  have hfd2 : ∀ r, r ≠ p.ruleName →
      (gateState p res.stylelint sl sf).fixersData r = res.stylelint.fixersData r := by
    intro r hrne
    exact addFixData_ne _ _ _ _ hrne
  cases hfixed : (gateOutcome p res.stylelint sl sf).fixed
  · rw [hfixed] at hfa
    have hrep2 : report p res
        = reportEmit p res (gateState p res.stylelint sl sf) sl
            (resolvedSeverity p res.stylelint) := by
      unfold report
      rw [hq, hm, hl]
      simp [hfa]
    obtain ⟨r', hr, hfd⟩ := reportEmit_ok p res (gateState p res.stylelint sl sf) sl
      (resolvedSeverity p res.stylelint)
    refine ⟨r', hrep2.trans hr, ?_, ?_, ?_⟩
    · rw [hfd, hfd1]
    · intro r hrne
      rw [hfd]
      exact hfd2 r hrne
    · intro h
      exact Bool.noConfusion h
  · rw [hfixed] at hfa
    have hrep2 : report p res
        = Except.ok { stylelint := gateState p res.stylelint sl sf, warnings := res.warnings } := by
      unfold report
      rw [hq, hm, hl]
      simp [hfa]
    refine ⟨_, hrep2, hfd1, hfd2, ?_⟩
    intro _
    rfl

theorem claim_C3_gate_witness :
    ∃ r', report baseProblem baseResult = Except.ok r'
      ∧ r'.stylelint.fixersData baseProblem.ruleName
          = some ((baseResult.stylelint.fixersData baseProblem.ruleName).getD []
              ++ [gateOutcome baseProblem baseResult.stylelint 1 false])
      ∧ (∀ r, r ≠ baseProblem.ruleName →
          r'.stylelint.fixersData r = baseResult.stylelint.fixersData r)
      ∧ ((gateOutcome baseProblem baseResult.stylelint 1 false).fixed = true →
          r'.warnings = baseResult.warnings) :=
  claim_C3_gate baseProblem baseResult 1 false rfl rfl rfl (Or.inl rfl)

/-- Claim C3 counterexample: a Problem reaching the gate with a fix
callback, the global fix flag on, and a per-rule settings map lacking
the rule: the gate throws a `TypeError`, the pipeline returns no state
at all, and in particular no FixOutcome is appended — the claim's
"exactly one FixOutcome is appended" fails on this input. -/
theorem claim_C3_counterexample :
    report problemWithFix resultFixNoEntry = Except.error ReportError.typeError
    ∧ (∀ r', report problemWithFix resultFixNoEntry ≠ Except.ok r') := by
  have h : report problemWithFix resultFixNoEntry = Except.error ReportError.typeError := rfl
  exact ⟨h, fun r' hc => by rw [h] at hc; exact Except.noConfusion hc⟩

/-- Claim C7 (confirmed): for every candidate that reaches the
Diagnostic Emitter (quiet filter passed, fix callback not misused, line
resolved, gate passed without applying a fix) whose rule and line are
suppressed, a SuppressionHit `{rule, line}` is appended to the Result
State regardless of the ignore-suppressions flag, and the diagnostic is
then emitted if and only if the ignore-suppressions flag is set. -/
theorem claim_C7_suppression (p : Problem) (res : PostcssResult) (sl : Nat)
    (st2 : StylelintState)
    (hq : (res.stylelint.quiet && !(resolvedSeverity p res.stylelint = some "error")) = false)
    (hm : misusedFix p res.stylelint = false)
    (hl : reportStartLine p = some sl)
    (hgate : isFixApplied p.fix sl res.stylelint p.ruleName = Except.ok (false, st2))
    (hd : isDisabled p.ruleName sl st2.disabledRanges = true) :
    ∃ r', report p res = Except.ok r'
      ∧ r'.stylelint.disabledWarnings
          = some ((st2.disabledWarnings.getD []) ++ [⟨p.ruleName, sl⟩])
      ∧ (configIgnoreDisables st2.config = false → r'.warnings = res.warnings)
      ∧ (configIgnoreDisables st2.config = true →
          ∃ w, r'.warnings = res.warnings ++ [w]) := by
  have hrep : report p res = reportEmit p res st2 sl (resolvedSeverity p res.stylelint) := by
    unfold report
    rw [hq, hm, hl]
    simp [hgate]
  cases hig : configIgnoreDisables st2.config
  · have hrep2 : report p res
        = Except.ok { stylelint := pushDisabledWarning p sl st2, warnings := res.warnings } := by
      rw [hrep]
      unfold reportEmit
      rw [hd, hig]
      simp
    refine ⟨_, hrep2, rfl, fun _ => rfl, ?_⟩
    intro h
    exact Bool.noConfusion h
  · have hrep2 : report p res
        = reportFinishEmit p res (pushDisabledWarning p sl st2)
            (resolvedSeverity p res.stylelint) := by
      rw [hrep]
      unfold reportEmit
      rw [hd, hig]
      simp
    unfold reportFinishEmit at hrep2
    refine ⟨_, hrep2, ?_, ?_, ?_⟩
    · rw [latchWarning_disabledWarnings, latchError_disabledWarnings]
      rfl
    · intro h
      exact Bool.noConfusion h
    · intro _
      exact ⟨_, rfl⟩

theorem claim_C7_suppression_witness :
    ∃ r', report baseProblem resultDisabled = Except.ok r'
      ∧ r'.stylelint.disabledWarnings
          = some ((stateDisabledAfterGate.disabledWarnings.getD [])
              ++ [⟨"block-no-empty", 1⟩])
      ∧ (configIgnoreDisables stateDisabledAfterGate.config = false →
          r'.warnings = resultDisabled.warnings)
      ∧ (configIgnoreDisables stateDisabledAfterGate.config = true →
          ∃ w, r'.warnings = resultDisabled.warnings ++ [w]) :=
  claim_C7_suppression baseProblem resultDisabled 1 stateDisabledAfterGate
    rfl rfl rfl rfl rfl

theorem resolvedSeverity_setQuietState (p : Problem) (b : Bool) (st : StylelintState) :
    resolvedSeverity p (setQuietState b st) = resolvedSeverity p st := rfl

theorem isFixApplied_setQuietState (fx : Option (Unit → Option RangeLoc)) (line : Nat)
    (st : StylelintState) (r : String) (b : Bool) :
    isFixApplied fx line (setQuietState b st) r
      = Except.map (fun x => (x.1, setQuietState b x.2)) (isFixApplied fx line st r) := by
  cases fx with
  | none => rfl
  | some f =>
    simp only [isFixApplied]
    have hc : (setQuietState b st).config = st.config := rfl
    have hd : (setQuietState b st).disabledRanges = st.disabledRanges := rfl
    rw [hc, hd]
    cases hval : evalShouldFix st.config r with
    | error e => rfl
    | ok sf =>
      simp only [hval]
      cases hmay : (sf && (configIgnoreDisables st.config || !isDisabled r line st.disabledRanges)) <;> rfl

theorem pushDisabledWarning_setQuietState (p : Problem) (sl : Nat) (b : Bool)
    (st : StylelintState) :
    pushDisabledWarning p sl (setQuietState b st)
      = setQuietState b (pushDisabledWarning p sl st) := rfl

theorem latchError_setQuietState (sev : Option String) (b : Bool) (st : StylelintState) :
    latchError sev (setQuietState b st) = setQuietState b (latchError sev st) := by
  unfold latchError
  have hc : (setQuietState b st).stylelintError = st.stylelintError := rfl
  rw [hc]
  split <;> rfl

theorem latchWarning_setQuietState (sev : Option String) (b : Bool) (st : StylelintState) :
    latchWarning sev (setQuietState b st) = setQuietState b (latchWarning sev st) := by
  unfold latchWarning
  have hc : (setQuietState b st).stylelintWarning = st.stylelintWarning := rfl
  rw [hc]
  split <;> rfl

theorem mkWarning_setQuietState (p : Problem) (b : Bool) (st : StylelintState)
    (sev : Option String) :
    mkWarning p (setQuietState b st) sev = mkWarning p st sev := rfl

theorem reportFinishEmit_setQuietState (p : Problem) (res : PostcssResult) (b : Bool)
    (st1 : StylelintState) (sev : Option String) :
    reportFinishEmit p (setQuiet b res) (setQuietState b st1) sev
      = Except.map (setQuiet b) (reportFinishEmit p res st1 sev) := by
  unfold reportFinishEmit
  rw [latchError_setQuietState, latchWarning_setQuietState, mkWarning_setQuietState]
  rfl

theorem reportEmit_setQuietState (p : Problem) (res : PostcssResult) (b : Bool)
    (st : StylelintState) (sl : Nat) (sev : Option String) :
    reportEmit p (setQuiet b res) (setQuietState b st) sl sev
      = Except.map (setQuiet b) (reportEmit p res st sl sev) := by
  unfold reportEmit
  have hd : (setQuietState b st).disabledRanges = st.disabledRanges := rfl
  have hc : (setQuietState b st).config = st.config := rfl
  rw [hd, hc, pushDisabledWarning_setQuietState]
  split
  · split
    · rfl
    · exact reportFinishEmit_setQuietState p res b _ sev
  · exact reportFinishEmit_setQuietState p res b st sev

/-- Claim C6 (confirmed): when quiet mode is enabled, every candidate
whose resolved severity is not error is discarded with no Result State
mutation of any kind — `report` returns the result completely unchanged,
so no diagnostic, suppression hit, fix outcome or latch change is
recorded — and every candidate whose resolved severity is error is
processed identically to non-quiet mode: toggling the quiet flag changes
the outcome only by carrying the toggled flag itself. -/
theorem claim_C6_quiet :
    (∀ (p : Problem) (res : PostcssResult),
      res.stylelint.quiet = true →
      resolvedSeverity p res.stylelint ≠ some "error" →
      report p res = Except.ok res)
    ∧ (∀ (p : Problem) (res : PostcssResult) (b : Bool),
      resolvedSeverity p res.stylelint = some "error" →
      report p (setQuiet b res) = Except.map (setQuiet b) (report p res)) := by
  constructor
  · intro p res hq hsev
    have hc : (res.stylelint.quiet && !(resolvedSeverity p res.stylelint = some "error")) = true := by
      rw [hq]
      simp [hsev]
    unfold report
    rw [hc]
    rfl
  · intro p res b hsev
    have hst : (setQuiet b res).stylelint = setQuietState b res.stylelint := rfl
    have hsevL : resolvedSeverity p (setQuiet b res).stylelint = some "error" := by
      rw [hst, resolvedSeverity_setQuietState, hsev]
    have hcL : ((setQuiet b res).stylelint.quiet
        && !(resolvedSeverity p (setQuiet b res).stylelint = some "error")) = false := by
      rw [hsevL]
      simp
    have hcR : (res.stylelint.quiet && !(resolvedSeverity p res.stylelint = some "error")) = false := by
      rw [hsev]
      simp
    have hmf : misusedFix p (setQuiet b res).stylelint = misusedFix p res.stylelint := rfl
    unfold report
    rw [hcL, hcR, hmf]
    cases hm : misusedFix p res.stylelint
    · cases hsl : reportStartLine p with
      | none => rfl
      | some sl =>
        simp only [Bool.false_eq_true, if_false]
        rw [hst, isFixApplied_setQuietState]
        cases hfa : isFixApplied p.fix sl res.stylelint p.ruleName with
        | error e => rfl
        | ok pr =>
          obtain ⟨fixed, st2⟩ := pr
          simp only [Except.map]
          cases fixed
          · simp only [Bool.false_eq_true, if_false]
            rw [resolvedSeverity_setQuietState]
            exact reportEmit_setQuietState p res b st2 sl (resolvedSeverity p res.stylelint)
          · rfl
    · rfl

theorem claim_C6_quiet_witness :
    report baseProblem quietResult = Except.ok quietResult
    ∧ report baseProblem (setQuiet true baseResult)
        = Except.map (setQuiet true) (report baseProblem baseResult) := by
  constructor
  · exact claim_C6_quiet.1 baseProblem quietResult rfl (by decide)
  · exact claim_C6_quiet.2 baseProblem baseResult true (by decide)

end Stylelint
